import Mathlib

set_option maxHeartbeats 1000000

/-!
Verification of the askh backend (src/backend/main.py and src/backend/ingest.py).

Python strings are modelled as lists of characters (PyStr); the Python string
methods used by the backend (strip, replace, startswith, endswith, split,
os.path.join / normpath / abspath) are embedded below with Python semantics.
The filesystem is modelled explicitly: a directory listing is a list of
entries, and a listing that raises is modelled by an error tag.
-/

abbrev PyStr := List Char

/-- The ASCII part of the whitespace set stripped by Python str.strip(). -/
def isPySpace (c : Char) : Bool :=
  c == ' ' || c == '\t' || c == '\n' || c == '\r' || c == Char.ofNat 11 || c == Char.ofNat 12

/-- Python str.lstrip with an explicit character predicate. -/
def pyLStripWith (p : Char → Bool) (s : PyStr) : PyStr := s.dropWhile p

/-- Python str.rstrip with an explicit character predicate. -/
def pyRStripWith (p : Char → Bool) (s : PyStr) : PyStr := (s.reverse.dropWhile p).reverse

/-- Strip characters satisfying p from both ends. -/
def pyStripWith (p : Char → Bool) (s : PyStr) : PyStr := pyRStripWith p (pyLStripWith p s)

/-- Python str.strip() with no argument: strip whitespace from both ends. -/
def pyStrip (s : PyStr) : PyStr := pyStripWith isPySpace s

/-- Python str.strip(q) for a one-character argument q: strip every leading and
trailing occurrence of q. -/
def pyStripChar (q : Char) (s : PyStr) : PyStr := pyStripWith (fun c => c == q) s

/-- Worker for pyReplace. The fuel argument only bounds the recursion; one unit
of fuel is spent per step and every step consumes at least one character of s,
so fuel = s.length is always sufficient and the 0-fuel case is unreachable on
the wrapper below. -/
def pyReplaceFuel (pat rep : PyStr) : Nat → PyStr → PyStr
  | 0, s => s
  | Nat.succ _, [] => []
  | Nat.succ n, c :: rest =>
    if pat ≠ [] ∧ pat.isPrefixOf (c :: rest) = true then
      rep ++ pyReplaceFuel pat rep n ((c :: rest).drop pat.length)
    else
      c :: pyReplaceFuel pat rep n rest

/-- Python str.replace(pat, rep): replace every occurrence of pat, scanning
left to right without overlap. (The backend only calls it with nonempty pat;
for pat = [] this model returns s unchanged.) -/
def pyReplace (pat rep s : PyStr) : PyStr := pyReplaceFuel pat rep s.length s

/-- The double-quote character. -/
def quoteD : Char := Char.ofNat 34

/-- The single-quote character. -/
def quoteS : Char := Char.ofNat 39

/-- The value returned for a frontmatter title line by get_markdown_title:
line.replace("title:", "").strip().strip(double-quote).strip(single-quote). -/
def titleValue (line : PyStr) : PyStr :=
  pyStripChar quoteS (pyStripChar quoteD (pyStrip (pyReplace "title:".toList [] line)))

/-- The loop over lines[1:] in get_markdown_title: stop at a line that strips
to the frontmatter delimiter, return the transformed value of the first line
that starts with the title prefix. -/
def fmScan : List PyStr → Option PyStr
  | [] => none
  | line :: rest =>
    if pyStrip line = "---".toList then none
    else if "title:".toList.isPrefixOf line then some (titleValue line)
    else fmScan rest

/-- The frontmatter part of get_markdown_title: the scan runs only when the
file is nonempty and its first line strips to the delimiter. -/
def fmTitle : List PyStr → Option PyStr
  | [] => none
  | first :: rest => if pyStrip first = "---".toList then fmScan rest else none

/-- The value returned for a heading line by get_markdown_title:
line.strip().replace(hash-marker, "").strip(). -/
def headingValue (line : PyStr) : PyStr :=
  pyStrip (pyReplace "# ".toList [] (pyStrip line))

/-- The heading loop of get_markdown_title: first line whose stripped form
starts with the single-hash marker. -/
def headScan : List PyStr → Option PyStr
  | [] => none
  | line :: rest =>
    if "# ".toList.isPrefixOf (pyStrip line) then some (headingValue line)
    else headScan rest

/-- get_markdown_title from src/backend/main.py, on the list of lines of the
file: frontmatter title if the first line strips to the delimiter and the
block holds a title line, else the first single-hash heading, else none. -/
def get_markdown_title (lines : List PyStr) : Option PyStr :=
  match fmTitle lines with
  | some t => some t
  | none => headScan lines

/-- Python string comparison (used by sorted): lexicographic on code points,
with a proper prefix comparing smaller. -/
def ple : PyStr → PyStr → Bool
  | [], _ => true
  | _ :: _, [] => false
  | x :: xs, y :: ys =>
    if x.toNat < y.toNat then true
    else if y.toNat < x.toNat then false
    else ple xs ys

/-- An OSError raised by os.listdir: either FileNotFoundError (the only one
build_file_tree catches) or any other kind, e.g. PermissionError. -/
inductive OSErr where
  | fileNotFound : OSErr
  | permissionError : OSErr

/-- A directory entry as seen by the tree builder: a file with its lines, or a
directory whose listing either raises (the error tag) or yields children. -/
inductive FSEntry where
  | file : PyStr → List PyStr → FSEntry
  | dir : PyStr → Option OSErr → List FSEntry → FSEntry

/-- The on-disk name of an entry, as returned by os.listdir. -/
def entryName : FSEntry → PyStr
  | FSEntry.file n _ => n
  | FSEntry.dir n _ _ => n

mutual

/-- Size of one entry, used as recursion fuel for the tree builder. -/
def entrySize : FSEntry → Nat
  | FSEntry.file _ _ => 1
  | FSEntry.dir _ _ children => 1 + entriesSize children

/-- Size of a listing, used as recursion fuel for the tree builder. -/
def entriesSize : List FSEntry → Nat
  | [] => 1
  | e :: rest => 1 + entrySize e + entriesSize rest

end

/-- The order used by sorted(os.listdir(...)): compare raw names. -/
abbrev rEnt (a b : FSEntry) : Prop := ple (entryName a) (entryName b) = true

/-- sorted(os.listdir(root_path)): sort the entries by raw name. -/
def sortEntries (l : List FSEntry) : List FSEntry := List.insertionSort rEnt l

/-- A node of the JSON tree returned by build_file_tree. -/
inductive TreeNode where
  | folder : PyStr → List TreeNode → TreeNode
  | file : PyStr → PyStr → PyStr → TreeNode

/-- The name field of a tree node. -/
def nodeName : TreeNode → PyStr
  | TreeNode.folder n _ => n
  | TreeNode.file n _ _ => n

/-- os.path.relpath(os.path.join(root, item), data-root) with separators
normalized, tracked as the relative prefix of the current directory. -/
def childPath (pref name : PyStr) : PyStr :=
  if pref = [] then name else pref ++ '/' :: name

/-- The displayName of a file node: the extracted title if it is truthy
(Python: non-None and non-empty), else item.replace(md-suffix, ""). -/
def displayNameFor (name : PyStr) (lines : List PyStr) : PyStr :=
  match get_markdown_title lines with
  | some t => if t = [] then pyReplace ".md".toList [] name else t
  | none => pyReplace ".md".toList [] name

/-- The loop of build_file_tree over the sorted listing. The fuel argument
only bounds the nesting; fuel = entriesSize of the list is always sufficient since
every recursive call is on a structurally smaller listing. Entries whose name
starts with a dot are skipped; directories recurse through the inlined body
of build_file_tree (catch FileNotFoundError to an empty list, propagate any
other error, else sort and process the children); files are kept only when
their name ends in the md suffix. -/
def buildItems : Nat → PyStr → List FSEntry → Except OSErr (List TreeNode)
  | 0, _, _ => Except.ok []
  | Nat.succ _, _, [] => Except.ok []
  | Nat.succ n, pref, FSEntry.file name lines :: rest =>
    if ".".toList.isPrefixOf name then buildItems n pref rest
    else if ".md".toList.isSuffixOf name then
      match buildItems n pref rest with
      | Except.error e => Except.error e
      | Except.ok ts =>
        Except.ok (TreeNode.file name (displayNameFor name lines) (childPath pref name) :: ts)
    else buildItems n pref rest
  | Nat.succ n, pref, FSEntry.dir name derr children :: rest =>
    if ".".toList.isPrefixOf name then buildItems n pref rest
    else
      match (match derr with
             | some OSErr.fileNotFound => Except.ok []
             | some e => Except.error e
             | none => buildItems n (childPath pref name) (sortEntries children)) with
      | Except.error e => Except.error e
      | Except.ok sub =>
        match buildItems n pref rest with
        | Except.error e => Except.error e
        | Except.ok ts => Except.ok (TreeNode.folder name sub :: ts)

/-- build_file_tree from src/backend/main.py, on a directory whose listing
either raises (err tag) or yields entries: a FileNotFoundError from listdir
gives an empty tree, any other error propagates, else the sorted entries are
processed. -/
def build_file_tree (pref : PyStr) (err : Option OSErr) (entries : List FSEntry) :
    Except OSErr (List TreeNode) :=
  match err with
  | some OSErr.fileNotFound => Except.ok []
  | some e => Except.error e
  | none => buildItems (entriesSize entries) pref (sortEntries entries)

/-- Adjacent siblings are in lexicographic order by name. -/
def sortedNamesB : List TreeNode → Bool
  | [] => true
  | [_] => true
  | a :: b :: r => ple (nodeName a) (nodeName b) && sortedNamesB (b :: r)

mutual

/-- The C7 invariant on one node: its name does not start with a dot, a file
node's name ends in the md suffix, and a folder node's children satisfy the
invariant and are sorted, recursively. -/
def nodeOk : TreeNode → Bool
  | TreeNode.file name _ _ => !(".".toList.isPrefixOf name) && ".md".toList.isSuffixOf name
  | TreeNode.folder name ch => !(".".toList.isPrefixOf name) && nodesOk ch && sortedNamesB ch

/-- The C7 invariant on every node of a list. -/
def nodesOk : List TreeNode → Bool
  | [] => true
  | t :: ts => nodeOk t && nodesOk ts

end

/-- Python str.split('/') on a path: pieces between slashes, empty pieces
kept. -/
def splitSlash : PyStr → List PyStr
  | [] => [[]]
  | c :: rest =>
    match splitSlash rest with
    | [] => [[c]]
    | h :: t => if c = '/' then [] :: h :: t else (c :: h) :: t

/-- posixpath.normpath: collapse empty and dot components, resolve dot-dot
components lexically, keep a leading slash (doubled exactly when the path
starts with exactly two slashes). -/
def pyNormpath (p : PyStr) : PyStr :=
  if p = [] then ['.']
  else
    let ini : Nat :=
      if "//".toList.isPrefixOf p = true ∧ ¬ ("///".toList.isPrefixOf p = true) then 2
      else if "/".toList.isPrefixOf p = true then 1 else 0
    let newComps := (splitSlash p).foldl
      (fun acc comp =>
        if comp = [] ∨ comp = ".".toList then acc
        else if comp ≠ "..".toList ∨ (ini = 0 ∧ acc = []) ∨ acc.getLast? = some ("..".toList) then
          acc ++ [comp]
        else if acc ≠ [] then acc.dropLast
        else acc) []
    let res := List.replicate ini '/' ++ List.intercalate ['/'] newComps
    if res = [] then ['.'] else res

/-- posixpath.join for two arguments. -/
def pyJoin (a b : PyStr) : PyStr :=
  if "/".toList.isPrefixOf b = true then b
  else if a = [] ∨ a.getLast? = some '/' then a ++ b
  else a ++ '/' :: b

/-- posixpath.abspath with an explicit current working directory. -/
def pyAbspath (cwd p : PyStr) : PyStr :=
  pyNormpath (if "/".toList.isPrefixOf p = true then p else pyJoin cwd p)

/-- First occurrence of sep in s: the part before it and the part after it. -/
def splitOnce (sep : PyStr) : PyStr → Option (PyStr × PyStr)
  | [] => none
  | c :: rest =>
    if sep ≠ [] ∧ sep.isPrefixOf (c :: rest) = true then some ([], (c :: rest).drop sep.length)
    else (splitOnce sep rest).map (fun pr => (c :: pr.1, pr.2))

/-- Python str.split(sep, maxsplit) for a nonempty sep: split at most
maxsplit times, scanning left to right. -/
def pySplit (sep : PyStr) : Nat → PyStr → List PyStr
  | 0, s => [s]
  | Nat.succ n, s =>
    match splitOnce sep s with
    | none => [s]
    | some (pre, post) => pre :: pySplit sep n post

/-- A filesystem object at an absolute path: a regular file with its text, or
a directory. -/
inductive FSObj where
  | file : PyStr → FSObj
  | dir : FSObj
deriving DecidableEq

/-- The environment of the content endpoint: the process working directory
(an absolute path) and the filesystem, keyed by absolute normalized path. -/
structure Ctx where
  cwd : PyStr
  fs : PyStr → Option FSObj

/-- safe_path = os.path.normpath(os.path.join("./data", path)). -/
def safePathOf (path : PyStr) : PyStr := pyNormpath (pyJoin ("./data".toList) path)

/-- abs_data_path = os.path.abspath("./data"). -/
def dataRootOf (ctx : Ctx) : PyStr := pyAbspath ctx.cwd ("./data".toList)

/-- abs_target_path = os.path.abspath(safe_path). -/
def targetOf (ctx : Ctx) (path : PyStr) : PyStr := pyAbspath ctx.cwd (safePathOf path)

/-- get_doc_content from src/backend/main.py: 403 when the absolute target
does not start with the absolute data root (raw string prefix test), 404 when
the target is not an existing regular file, else the file text with a leading
frontmatter block split off when splitting on the delimiter (at most twice)
yields at least three parts. -/
def get_doc_content (ctx : Ctx) (path : PyStr) : Except Nat PyStr :=
  if (dataRootOf ctx).isPrefixOf (targetOf ctx path) = false then Except.error 403
  else
    match ctx.fs (targetOf ctx path) with
    | some (FSObj.file content) =>
      if "---".toList.isPrefixOf content then
        if 3 ≤ (pySplit ("---".toList) 2 content).length then
          Except.ok (pyStrip ((pySplit ("---".toList) 2 content).getD 2 []))
        else Except.ok content
      else Except.ok content
    | some FSObj.dir => Except.error 404
    | none => Except.error 404

/-- The environment of ingest_data: whether a persisted chroma store exists,
and the documents that the external SimpleDirectoryReader yields for the data
directory. The reader is external to this repository and is treated per the
spec as a black box that yields the readable documents under the directory,
none when the directory is missing or holds no readable documents. -/
structure IngestEnv where
  dbExists : Bool
  documents : List PyStr

/-- Observable outcome of one ingest_data run. -/
structure IngestResult where
  deletedOldDb : Bool
  recreatedDb : Bool
  builtIndex : Bool

/-- ingest_data from src/backend/ingest.py: delete the old store when it
exists, recreate a fresh persistent collection, and build an index only when
the reader yielded at least one document; an empty corpus returns silently. -/
def ingest_data (env : IngestEnv) : Except PyStr IngestResult :=
  if env.documents.length = 0 then
    Except.ok ⟨env.dbExists, true, false⟩
  else
    Except.ok ⟨env.dbExists, true, true⟩

/-- The external chat engine: message in, answer or error text out. -/
abbrev ChatEngine := PyStr → Except PyStr PyStr

/-- The startup block of main.py: a successful load yields an engine, any
exception leaves chat_engine = None (degraded state). -/
def startup_chat_engine (init : Except PyStr ChatEngine) : Option ChatEngine :=
  match init with
  | Except.ok eng => some eng
  | Except.error _ => none

/-- chat_endpoint from src/backend/main.py: 503 when chat_engine is None,
else delegate and surface an engine failure as 500 with the error text. -/
def chat_endpoint (engine : Option ChatEngine) (msg : PyStr) : Except (Nat × PyStr) PyStr :=
  match engine with
  | none => Except.error (503, "Database belum siap/kosong.".toList)
  | some chat =>
    match chat msg with
    | Except.ok r => Except.ok r
    | Except.error e => Except.error (500, e)

/-- Concrete context for the traversal-escape witness: the classic escape
path target exists on disk but is outside the data root. -/
def escCtx : Ctx :=
  ⟨"/app".toList,
   fun p => if p = "/etc/passwd".toList then some (FSObj.file ("root:x:0:0".toList)) else none⟩

/-- Concrete context for the sibling-directory bypass: /app/dataX is a
sibling of the data root /app/data and holds a secret file. -/
def sibCtx : Ctx :=
  ⟨"/app".toList,
   fun p => if p = "/app/dataX/secret.md".toList then some (FSObj.file ("secret stuff".toList))
            else none⟩

/-- Concrete context with a frontmatter document inside the data root. -/
def dataCtx : Ctx :=
  ⟨"/app".toList,
   fun p => if p = "/app/data/x.md".toList then
              some (FSObj.file ("---\ntitle: X\n---\nBody text".toList))
            else none⟩

theorem find?_cons_pos {α : Type} (p : α → Bool) (a : α) (l : List α) (h : p a = true) :
    List.find? p (a :: l) = some a := by
  simp only [List.find?]
  rw [h]

theorem find?_cons_neg {α : Type} (p : α → Bool) (a : α) (l : List α) (h : p a = false) :
    List.find? p (a :: l) = List.find? p l := by
  simp only [List.find?]
  rw [h]

theorem fmScan_eq_find (rest : List PyStr) :
    fmScan rest =
      ((rest.takeWhile (fun l => decide (pyStrip l ≠ "---".toList))).find?
        (fun l => "title:".toList.isPrefixOf l)).map titleValue := by
  induction rest with
  | nil => rfl
  | cons line r ih =>
    by_cases h1 : pyStrip line = "---".toList
    · rw [List.takeWhile_cons_of_neg (by simpa using h1)]
      simp [fmScan, h1]
    · rw [List.takeWhile_cons_of_pos (by simpa using h1)]
      cases h2 : "title:".toList.isPrefixOf line with
      | true =>
        rw [find?_cons_pos (fun l => "title:".toList.isPrefixOf l) line _ h2]
        simp only [fmScan]
        rw [if_neg h1, if_pos h2]
        rfl
      | false =>
        rw [find?_cons_neg (fun l => "title:".toList.isPrefixOf l) line _ h2]
        simp only [fmScan, ih]
        rw [if_neg h1, if_neg (by rw [h2]; exact Bool.false_ne_true)]

theorem headScan_eq_find (lines : List PyStr) :
    headScan lines =
      (lines.find? (fun l => "# ".toList.isPrefixOf (pyStrip l))).map headingValue := by
  induction lines with
  | nil => rfl
  | cons line r ih =>
    cases h : "# ".toList.isPrefixOf (pyStrip line) with
    | true =>
      rw [find?_cons_pos (fun l => "# ".toList.isPrefixOf (pyStrip l)) line _ h]
      simp only [headScan]
      rw [if_pos h]
      rfl
    | false =>
      rw [find?_cons_neg (fun l => "# ".toList.isPrefixOf (pyStrip l)) line _ h]
      simp only [headScan, ih]
      rw [if_neg (by rw [h]; exact Bool.false_ne_true)]

/-- C3 (amended): for every markdown file whose first line strips to the
frontmatter delimiter and whose frontmatter block (the lines before the first
subsequent line stripping to the delimiter) contains a line starting with the
title prefix, get_markdown_title immediately returns the first such line with
every occurrence of the title prefix removed, surrounding whitespace stripped,
then all surrounding double quotes and then all surrounding single quotes
stripped, regardless of any heading content in the body. -/
theorem get_markdown_title_frontmatter (first : PyStr) (rest : List PyStr) (t : PyStr)
    (h1 : pyStrip first = "---".toList)
    (h2 : (rest.takeWhile (fun l => decide (pyStrip l ≠ "---".toList))).find?
        (fun l => "title:".toList.isPrefixOf l) = some t) :
    get_markdown_title (first :: rest) = some (titleValue t) := by
  have hf : fmTitle (first :: rest) = some (titleValue t) := by
    simp only [fmTitle]
    rw [if_pos h1, fmScan_eq_find, h2]
    rfl
  simp only [get_markdown_title, hf]

/-- Witness for C3: a concrete frontmatter file with a quoted title and a
heading in the body yields the unquoted title. -/
theorem get_markdown_title_frontmatter_inst :
    get_markdown_title
      ["---\n".toList, "title: \"Hello\"\n".toList, "---\n".toList, "# Other\n".toList]
      = some ("Hello".toList) := by
  have h := get_markdown_title_frontmatter ("---\n".toList)
    ["title: \"Hello\"\n".toList, "---\n".toList, "# Other\n".toList]
    ("title: \"Hello\"\n".toList) (by decide) (by decide)
  exact h

/-- C3 as stated is false: in a file whose first line is blank and whose first
non-empty line is the frontmatter delimiter, with a title field in the block,
get_markdown_title ignores the frontmatter (the code tests only line 0) and
returns none instead of the field value X. -/
theorem get_markdown_title_frontmatter_cex :
    (["\n".toList, "---\n".toList, "title: X\n".toList, "---\n".toList].find?
        (fun l => decide (pyStrip l ≠ [])) = some ("---\n".toList))
    ∧ "title:".toList.isPrefixOf ("title: X\n".toList) = true
    ∧ get_markdown_title
        ["\n".toList, "---\n".toList, "title: X\n".toList, "---\n".toList] = none
    ∧ get_markdown_title
        ["\n".toList, "---\n".toList, "title: X\n".toList, "---\n".toList]
        ≠ some ("X".toList) := by
  refine ⟨by decide, by decide, by decide, by decide⟩

/-- C5 (amended): for every file with no frontmatter title, get_markdown_title
scans all lines for the first whose stripped form starts with the single-hash
marker and returns that stripped line with every occurrence of the marker
removed and surrounding whitespace stripped (which equals the remainder after
the leading marker whenever the marker occurs nowhere else in the line). -/
theorem get_markdown_title_heading (lines : List PyStr) (t : PyStr)
    (h1 : fmTitle lines = none)
    (h2 : lines.find? (fun l => "# ".toList.isPrefixOf (pyStrip l)) = some t) :
    get_markdown_title lines = some (pyStrip (pyReplace "# ".toList [] (pyStrip t))) := by
  unfold get_markdown_title
  rw [h1, headScan_eq_find, h2]
  rfl

/-- Witness for C5: a file with no frontmatter and the line with heading
Heading yields the title Heading. -/
theorem get_markdown_title_heading_inst :
    get_markdown_title ["some text\n".toList, "# Heading\n".toList]
      = some ("Heading".toList) := by
  have h := get_markdown_title_heading
    ["some text\n".toList, "# Heading\n".toList] ("# Heading\n".toList)
    (by decide) (by decide)
  exact h

/-- C5 as stated is false: on the heading line with a second inline marker the
code removes every occurrence of the marker, not just the leading one, so the
extracted title drops the inner hash instead of keeping the remainder intact. -/
theorem get_markdown_title_heading_cex :
    fmTitle ["# A # B\n".toList] = none
    ∧ get_markdown_title ["# A # B\n".toList] = some ("A B".toList)
    ∧ ("A B".toList : PyStr) ≠ "A # B".toList := by
  refine ⟨by decide, by decide, by decide⟩

theorem ple_total (a b : PyStr) : ple a b = true ∨ ple b a = true := by
  induction a generalizing b with
  | nil => exact Or.inl rfl
  | cons x xs ih =>
    cases b with
    | nil => exact Or.inr rfl
    | cons y ys =>
      simp only [ple]
      rcases Nat.lt_trichotomy x.toNat y.toNat with h | h | h
      · refine Or.inl ?_
        rw [if_pos h]
      · rw [if_neg (by omega), if_neg (by omega), if_neg (by omega), if_neg (by omega)]
        exact ih ys
      · refine Or.inr ?_
        rw [if_pos h]

theorem ple_trans (a b c : PyStr) (hab : ple a b = true) (hbc : ple b c = true) :
    ple a c = true := by
  induction a generalizing b c with
  | nil => rfl
  | cons x xs ih =>
    cases b with
    | nil => simp [ple] at hab
    | cons y ys =>
      cases c with
      | nil => simp [ple] at hbc
      | cons z zs =>
        simp only [ple] at hab hbc ⊢
        rcases Nat.lt_trichotomy x.toNat y.toNat with hxy | hxy | hxy
        · rcases Nat.lt_trichotomy y.toNat z.toNat with hyz | hyz | hyz
          · rw [if_pos (by omega)]
          · rw [if_pos (by omega)]
          · rw [if_neg (by omega), if_pos (by omega)] at hbc
            exact absurd hbc Bool.false_ne_true
        · rcases Nat.lt_trichotomy y.toNat z.toNat with hyz | hyz | hyz
          · rw [if_pos (by omega)]
          · rw [if_neg (by omega), if_neg (by omega)] at hab
            rw [if_neg (by omega), if_neg (by omega)] at hbc
            rw [if_neg (by omega), if_neg (by omega)]
            exact ih ys zs hab hbc
          · rw [if_neg (by omega), if_pos (by omega)] at hbc
            exact absurd hbc Bool.false_ne_true
        · rw [if_neg (by omega), if_pos (by omega)] at hab
          exact absurd hab Bool.false_ne_true

theorem pairwise_sorted_names (l : List FSEntry) :
    ((sortEntries l).map entryName).Pairwise (fun a b => ple a b = true) := by
  haveI : IsTotal FSEntry rEnt := ⟨fun a b => ple_total (entryName a) (entryName b)⟩
  haveI : IsTrans FSEntry rEnt :=
    ⟨fun a b c hab hbc => ple_trans (entryName a) (entryName b) (entryName c) hab hbc⟩
  have h : (sortEntries l).Pairwise rEnt := List.sorted_insertionSort rEnt l
  exact List.pairwise_map.mpr h

theorem sortedNamesB_of_pairwise : ∀ ts : List TreeNode,
    (ts.map nodeName).Pairwise (fun a b => ple a b = true) → sortedNamesB ts = true
  | [], _ => rfl
  | [_], _ => rfl
  | a :: b :: r, h => by
    rw [List.map_cons, List.pairwise_cons] at h
    obtain ⟨hab, h2⟩ := h
    have h1 : ple (nodeName a) (nodeName b) = true := hab (nodeName b) (by simp)
    simp only [sortedNamesB]
    rw [h1, sortedNamesB_of_pairwise (b :: r) h2]
    rfl

theorem nodesOk_cons (t : TreeNode) (ts : List TreeNode)
    (h1 : nodeOk t = true) (h2 : nodesOk ts = true) : nodesOk (t :: ts) = true := by
  show (nodeOk t && nodesOk ts) = true
  rw [h1, h2]
  rfl

theorem nodeOk_file (name d p : PyStr)
    (h1 : ".".toList.isPrefixOf name = false) (h2 : ".md".toList.isSuffixOf name = true) :
    nodeOk (TreeNode.file name d p) = true := by
  show (!(".".toList.isPrefixOf name) && ".md".toList.isSuffixOf name) = true
  rw [h1, h2]
  rfl

theorem nodeOk_folder (name : PyStr) (ch : List TreeNode)
    (h1 : ".".toList.isPrefixOf name = false) (h2 : nodesOk ch = true)
    (h3 : sortedNamesB ch = true) : nodeOk (TreeNode.folder name ch) = true := by
  show ((!(".".toList.isPrefixOf name) && nodesOk ch) && sortedNamesB ch) = true
  rw [h1, h2, h3]
  rfl

theorem buildItems_ok (n : Nat) :
    ∀ (pref : PyStr) (items : List FSEntry) (ts : List TreeNode),
      buildItems n pref items = Except.ok ts →
      nodesOk ts = true ∧ (ts.map nodeName).Sublist (items.map entryName) := by
  induction n with
  | zero =>
    intro pref items ts h
    simp only [buildItems] at h
    injection h with h2
    subst h2
    exact ⟨rfl, List.nil_sublist _⟩
  | succ n ih =>
    intro pref items ts h
    cases items with
    | nil =>
      simp only [buildItems] at h
      injection h with h2
      subst h2
      exact ⟨rfl, List.nil_sublist _⟩
    | cons e rest =>
      cases e with
      | file name lines =>
        simp only [buildItems] at h
        cases hdot : ".".toList.isPrefixOf name with
        | true =>
          rw [if_pos hdot] at h
          obtain ⟨hok, hsub⟩ := ih pref rest ts h
          refine ⟨hok, ?_⟩
          simp only [List.map_cons, entryName]
          exact List.Sublist.cons _ hsub
        | false =>
          rw [if_neg (by rw [hdot]; exact Bool.false_ne_true)] at h
          cases hmd : ".md".toList.isSuffixOf name with
          | true =>
            rw [if_pos hmd] at h
            cases hrest : buildItems n pref rest with
            | error e2 =>
              rw [hrest] at h
              exact Except.noConfusion h
            | ok ts2 =>
              rw [hrest] at h
              injection h with h2
              subst h2
              obtain ⟨hok, hsub⟩ := ih pref rest ts2 hrest
              constructor
              · exact nodesOk_cons _ _ (nodeOk_file name _ _ hdot hmd) hok
              · simp only [List.map_cons, entryName, nodeName]
                exact List.Sublist.cons₂ _ hsub
          | false =>
            rw [if_neg (by rw [hmd]; exact Bool.false_ne_true)] at h
            obtain ⟨hok, hsub⟩ := ih pref rest ts h
            refine ⟨hok, ?_⟩
            simp only [List.map_cons, entryName]
            exact List.Sublist.cons _ hsub
      | dir name derr children =>
        simp only [buildItems] at h
        cases hdot : ".".toList.isPrefixOf name with
        | true =>
          rw [if_pos hdot] at h
          obtain ⟨hok, hsub⟩ := ih pref rest ts h
          refine ⟨hok, ?_⟩
          simp only [List.map_cons, entryName]
          exact List.Sublist.cons _ hsub
        | false =>
          rw [if_neg (by rw [hdot]; exact Bool.false_ne_true)] at h
          cases derr with
          | none =>
            cases hch : buildItems n (childPath pref name) (sortEntries children) with
            | error e2 =>
              rw [hch] at h
              exact Except.noConfusion h
            | ok sub =>
              rw [hch] at h
              cases hrest : buildItems n pref rest with
              | error e2 =>
                rw [hrest] at h
                exact Except.noConfusion h
              | ok ts2 =>
                rw [hrest] at h
                injection h with h2
                subst h2
                obtain ⟨hsubok, hsubsub⟩ := ih (childPath pref name) (sortEntries children) sub hch
                obtain ⟨hok, hsub⟩ := ih pref rest ts2 hrest
                constructor
                · have hpw2 : (sub.map nodeName).Pairwise (fun a b => ple a b = true) :=
                    List.Pairwise.sublist hsubsub (pairwise_sorted_names children)
                  have hsn := sortedNamesB_of_pairwise sub hpw2
                  exact nodesOk_cons _ _ (nodeOk_folder name sub hdot hsubok hsn) hok
                · simp only [List.map_cons, entryName, nodeName]
                  exact List.Sublist.cons₂ _ hsub
          | some oe =>
            cases oe with
            | fileNotFound =>
              cases hrest : buildItems n pref rest with
              | error e2 =>
                rw [hrest] at h
                exact Except.noConfusion h
              | ok ts2 =>
                rw [hrest] at h
                injection h with h2
                subst h2
                obtain ⟨hok, hsub⟩ := ih pref rest ts2 hrest
                constructor
                · exact nodesOk_cons _ _ (nodeOk_folder name [] hdot rfl rfl) hok
                · simp only [List.map_cons, entryName, nodeName]
                  exact List.Sublist.cons₂ _ hsub
            | permissionError => exact Except.noConfusion h

/-- C7: for every directory listing, every node of the tree built by
build_file_tree has a name that does not start with a dot, every file node
name ends in the md suffix, and siblings are in lexicographic order by raw
on-disk name, recursively at every level. -/
theorem build_file_tree_invariants (pref : PyStr) (err : Option OSErr) (entries : List FSEntry)
    (ts : List TreeNode) (h : build_file_tree pref err entries = Except.ok ts) :
    nodesOk ts = true ∧ sortedNamesB ts = true := by
  cases err with
  | none =>
    simp only [build_file_tree] at h
    obtain ⟨h1, h2⟩ := buildItems_ok (entriesSize entries) pref (sortEntries entries) ts h
    exact ⟨h1, sortedNamesB_of_pairwise ts (List.Pairwise.sublist h2 (pairwise_sorted_names entries))⟩
  | some e =>
    cases e with
    | fileNotFound =>
      simp only [build_file_tree] at h
      injection h with h2
      subst h2
      exact ⟨rfl, rfl⟩
    | permissionError => exact Except.noConfusion h

/-- Witness for C7: a concrete listing with a dotfile, a non-markdown file, a
subdirectory and unsorted names yields a tree satisfying the invariant. -/
theorem build_file_tree_invariants_inst :
    nodesOk [TreeNode.file ("a.md".toList) ("a".toList) ("a.md".toList),
             TreeNode.file ("b.md".toList) ("B".toList) ("b.md".toList),
             TreeNode.folder ("z".toList) [TreeNode.file ("c.md".toList) ("c".toList) ("z/c.md".toList)]] = true
    ∧ sortedNamesB [TreeNode.file ("a.md".toList) ("a".toList) ("a.md".toList),
             TreeNode.file ("b.md".toList) ("B".toList) ("b.md".toList),
             TreeNode.folder ("z".toList) [TreeNode.file ("c.md".toList) ("c".toList) ("z/c.md".toList)]] = true :=
  build_file_tree_invariants [] none
    [FSEntry.file ("b.md".toList) ["# B\n".toList],
     FSEntry.file (".hidden".toList) [],
     FSEntry.file ("a.txt".toList) [],
     FSEntry.dir ("z".toList) none [FSEntry.file ("c.md".toList) []],
     FSEntry.file ("a.md".toList) []]
    [TreeNode.file ("a.md".toList) ("a".toList) ("a.md".toList),
     TreeNode.file ("b.md".toList) ("B".toList) ("b.md".toList),
     TreeNode.folder ("z".toList) [TreeNode.file ("c.md".toList) ("c".toList) ("z/c.md".toList)]]
    rfl

/-- C6 (amended): for every markdown file for which title extraction returns
none, the File node emitted by build_file_tree has displayName equal to the
filename with every occurrence of the md suffix string removed (which
coincides with removing the final suffix whenever that string occurs nowhere
else in the name). -/
theorem buildItems_fallback_displayName (n : Nat) (pref name : PyStr) (lines : List PyStr)
    (rest : List FSEntry)
    (ht : get_markdown_title lines = none)
    (hdot : ".".toList.isPrefixOf name = false)
    (hmd : ".md".toList.isSuffixOf name = true) :
    buildItems (Nat.succ n) pref (FSEntry.file name lines :: rest) =
      (buildItems n pref rest).map
        (fun ts =>
          TreeNode.file name (pyReplace (".md".toList) [] name) (childPath pref name) :: ts) := by
  simp only [buildItems]
  rw [if_neg (by rw [hdot]; exact Bool.false_ne_true), if_pos hmd]
  have hd : displayNameFor name lines = pyReplace (".md".toList) [] name := by
    simp only [displayNameFor, ht]
  rw [hd]
  cases buildItems n pref rest with
  | error e => rfl
  | ok ts => rfl

/-- Witness for C6: a markdown file with no title gets the replace-based
fallback display name. -/
theorem buildItems_fallback_displayName_inst :
    buildItems 1 [] [FSEntry.file ("notes.md".toList) ["plain text\n".toList]] =
      (buildItems 0 ([] : PyStr) ([] : List FSEntry)).map
        (fun ts =>
          TreeNode.file ("notes.md".toList) (pyReplace (".md".toList) [] ("notes.md".toList))
            (childPath [] ("notes.md".toList)) :: ts) :=
  buildItems_fallback_displayName 0 [] ("notes.md".toList) ["plain text\n".toList] []
    (by decide) (by decide) (by decide)

/-- C6 fails as stated: for the titleless file named a.md.md the emitted
displayName is a (every occurrence of the suffix string is removed by
str.replace), not the suffix-stripped a.md. -/
theorem build_file_tree_displayName_cex :
    build_file_tree [] none [FSEntry.file ("a.md.md".toList) []] =
      Except.ok [TreeNode.file ("a.md.md".toList) ("a".toList) ("a.md.md".toList)]
    ∧ ("a".toList : PyStr) ≠ "a.md".toList
    ∧ get_markdown_title ([] : List PyStr) = none :=
  ⟨rfl, by decide, rfl⟩

/-- C8 (amended): a directory whose listing raises FileNotFoundError yields an
empty subtree; a directory whose listing raises any other error, such as
PermissionError, propagates the error out of build_file_tree instead of being
swallowed. -/
theorem build_file_tree_listing_errors (pref : PyStr) (entries : List FSEntry) :
    build_file_tree pref (some OSErr.fileNotFound) entries = Except.ok []
    ∧ build_file_tree pref (some OSErr.permissionError) entries =
        Except.error OSErr.permissionError :=
  ⟨rfl, rfl⟩

/-- C8 fails as stated: an unreadable directory (PermissionError on listing)
does not produce an empty subtree; the error propagates. -/
theorem build_file_tree_unreadable_cex :
    build_file_tree [] (some OSErr.permissionError) [] = Except.error OSErr.permissionError
    ∧ build_file_tree [] (some OSErr.permissionError) [] ≠ Except.ok [] :=
  ⟨rfl, fun h => Except.noConfusion h⟩

/-- C1: for every caller-supplied relative path whose resolved absolute target
is not prefixed by the data root's absolute path, get_doc_content fails with
the forbidden 403 condition and never returns file content. -/
theorem get_doc_content_forbidden (ctx : Ctx) (path : PyStr)
    (h : (dataRootOf ctx).isPrefixOf (targetOf ctx path) = false) :
    get_doc_content ctx path = Except.error 403 := by
  simp only [get_doc_content]
  rw [if_pos h]

/-- Witness for C1: the classic escape path resolves to /etc/passwd, outside
the data root, and is rejected with 403 even though the file exists. -/
theorem get_doc_content_forbidden_inst :
    get_doc_content escCtx ("../../etc/passwd".toList) = Except.error 403 :=
  get_doc_content_forbidden escCtx ("../../etc/passwd".toList) (by decide)

/-- C2: there is a relative path whose resolved absolute target lies outside
the data root directory (it is neither the data root nor below it) yet
get_doc_content does not raise 403 and returns the file content, because the
guard is a raw string prefix test: the sibling directory /app/dataX passes
the startswith check against /app/data. -/
theorem get_doc_content_prefix_bypass :
    ((dataRootOf sibCtx) ++ "/".toList).isPrefixOf
        (targetOf sibCtx ("../dataX/secret.md".toList)) = false
    ∧ targetOf sibCtx ("../dataX/secret.md".toList) ≠ dataRootOf sibCtx
    ∧ get_doc_content sibCtx ("../dataX/secret.md".toList) =
        Except.ok ("secret stuff".toList) :=
  ⟨by decide, by decide, rfl⟩

theorem isPrefixOf_of_append (a s t : PyStr) (h : (a ++ s).isPrefixOf t = true) :
    a.isPrefixOf t = true := by
  induction a generalizing t with
  | nil => cases t <;> rfl
  | cons x xs ih =>
    cases t with
    | nil => simp [List.isPrefixOf] at h
    | cons y ys =>
      simp only [List.cons_append, List.isPrefixOf, Bool.and_eq_true] at h ⊢
      exact ⟨h.1, ih ys h.2⟩

/-- C9: for every readable regular file inside the data root, get_doc_content
returns the third part of splitting the text on the frontmatter delimiter (at
most twice), trimmed, when the text starts with the delimiter and the split
yields at least three parts; otherwise it returns the raw text unchanged; in
both cases the request succeeds. -/
theorem get_doc_content_file_content (ctx : Ctx) (path content : PyStr)
    (hin : ((dataRootOf ctx) ++ "/".toList).isPrefixOf (targetOf ctx path) = true)
    (hfs : ctx.fs (targetOf ctx path) = some (FSObj.file content)) :
    ("---".toList.isPrefixOf content = true →
        3 ≤ (pySplit ("---".toList) 2 content).length →
        get_doc_content ctx path =
          Except.ok (pyStrip ((pySplit ("---".toList) 2 content).getD 2 [])))
    ∧ (("---".toList.isPrefixOf content = false
          ∨ (pySplit ("---".toList) 2 content).length < 3) →
        get_doc_content ctx path = Except.ok content) := by
  have hgrd : (dataRootOf ctx).isPrefixOf (targetOf ctx path) = true :=
    isPrefixOf_of_append _ _ _ hin
  have hne : ¬ ((dataRootOf ctx).isPrefixOf (targetOf ctx path) = false) := by
    rw [hgrd]
    exact fun hc => Bool.noConfusion hc
  constructor
  · intro hfm hlen
    simp only [get_doc_content, hfs]
    rw [if_neg hne, if_pos hfm, if_pos hlen]
  · intro hcase
    simp only [get_doc_content, hfs]
    rw [if_neg hne]
    cases hfm2 : "---".toList.isPrefixOf content with
    | false => rw [if_neg Bool.false_ne_true]
    | true =>
      rcases hcase with hfm | hlen
      · exact Bool.noConfusion (hfm2.symm.trans hfm)
      · rw [if_pos rfl, if_neg (by omega)]

/-- Witness for C9: the documented example file yields only the body, with
the frontmatter block stripped. -/
theorem get_doc_content_file_content_inst :
    get_doc_content dataCtx ("x.md".toList) = Except.ok ("Body text".toList) := by
  have h := (get_doc_content_file_content dataCtx ("x.md".toList)
      ("---\ntitle: X\n---\nBody text".toList) (by decide) (by decide)).1
      (by decide) (by decide)
  exact h

/-- C4: when the external reader yields zero documents (data directory absent
or holding no readable documents), ingest_data returns successfully without
building an index, after having deleted any prior persisted store. -/
theorem ingest_data_empty_corpus (env : IngestEnv) (h : env.documents = []) :
    ingest_data env = Except.ok ⟨env.dbExists, true, false⟩ := by
  simp [ingest_data, h]

/-- Witness for C4: an empty corpus with a pre-existing store deletes the old
store, recreates the collection and builds no index, with no error. -/
theorem ingest_data_empty_corpus_inst :
    ingest_data ⟨true, []⟩ = Except.ok ⟨true, true, false⟩ :=
  ingest_data_empty_corpus ⟨true, []⟩ rfl

/-- C10: when startup failed the chat endpoint fails fast with 503 on every
call; when initialized, a failure of the external engine is surfaced as 500
carrying the underlying error text. -/
theorem chat_endpoint_degraded_and_failure (ferr msg e : PyStr) (eng : ChatEngine)
    (h : eng msg = Except.error e) :
    chat_endpoint (startup_chat_engine (Except.error ferr)) msg
        = Except.error (503, "Database belum siap/kosong.".toList)
    ∧ chat_endpoint (some eng) msg = Except.error (500, e) := by
  refine ⟨rfl, ?_⟩
  simp only [chat_endpoint, h]

/-- Witness for C10: a failed startup gives 503; an engine error gives 500
with the error text. -/
theorem chat_endpoint_degraded_and_failure_inst :
    chat_endpoint (startup_chat_engine (Except.error ("no index".toList))) ("hi".toList)
        = Except.error (503, "Database belum siap/kosong.".toList)
    ∧ chat_endpoint (some (fun _ => Except.error ("boom".toList))) ("hi".toList)
        = Except.error (500, "boom".toList) :=
  chat_endpoint_degraded_and_failure ("no index".toList) ("hi".toList) ("boom".toList)
    (fun _ => Except.error ("boom".toList)) rfl
